import Mathlib

/-!
# Forward-headers client middleware

A shallow embedding of
`pkg/services/pluginsintegration/clientmiddleware/forward_headers_middleware.go`:
the `forwardHeaders` helper and the three entry points `QueryData`,
`CallResource` and `CheckHealth` of `ForwardHeadersMiddleware`.

Effects become explicit: `forwardHeaders` threads the outbound carrier's header
state and returns, oldest first, the log records it wrote and the
`SetHTTPHeader` calls it made; an entry point returns the inner client's result
together with the same trace extended by the delegation.
-/

namespace ForwardHeaders

/-! ## Inbound HTTP headers (`net/http`) -/

/-- The Go type `http.Header`, a map from header name to its values, kept as an
association list read with `List.lookup`. -/
abbrev Header := List (String × List String)

/-- The bytes the Go standard library accepts in a header field name (RFC 7230
token characters); code points 39 and 96 are the apostrophe and the grave
accent. -/
def validHeaderFieldByte (c : Char) : Bool :=
  c.isAlphanum || "!#$%&*+-.^_|~".toList.contains c || c.toNat == 39 || c.toNat == 96

/-- The rewriting loop of `textproto.CanonicalMIMEHeaderKey`: the first letter
and every letter after a dash in upper case, every other letter in lower case. -/
def canonicalBytes : Bool → List Char → List Char
  | _, [] => []
  | upper, c :: cs =>
    let c1 := if upper && c.isLower then c.toUpper
              else if !upper && c.isUpper then c.toLower
              else c
    c1 :: canonicalBytes (c1 == '-') cs

/-- The Go function `textproto.CanonicalMIMEHeaderKey`: a name made of valid
header field bytes is put in canonical form, any other string is returned
unchanged. -/
def CanonicalMIMEHeaderKey (s : String) : String :=
  if s.toList.all validHeaderFieldByte then String.mk (canonicalBytes true s.toList) else s

/-- The map index `h[k]` with its presence flag: the values stored under exactly
the key `k`. -/
def Header.index (h : Header) (k : String) : Option (List String) :=
  h.lookup k

/-- The Go method `http.Header.Get`: the first value stored under the canonical
form of `key`, the empty string when there is none. -/
def Header.Get (h : Header) (key : String) : String :=
  match h.lookup (CanonicalMIMEHeaderKey key) with
  | some (v :: _) => v
  | _ => ""

/-! ## Call context, plugin context and data source -/

/-- The authenticated principal; the middleware only tests it for nil. -/
structure SignedInUser where
  UserID : Int
  OrgID : Int
  deriving DecidableEq

/-- The inbound `http.Request`, of which only the headers are read. -/
structure HttpRequest where
  Header : Header
  deriving DecidableEq

/-- The request context attached upstream: both fields are pointers. -/
structure ReqContext where
  Req : Option HttpRequest
  SignedInUser : Option SignedInUser
  deriving DecidableEq

/-- The call context `context.Context`, reduced to the request context it may
hold. -/
structure Context where
  reqContext : Option ReqContext
  deriving DecidableEq

/-- Modelled from the spec: `contexthandler.FromContext`, whose body is outside
this file, "given a CallContext, produce the RequestContext if one was attached
upstream, else a sentinel absent value"; a pure lookup. -/
def FromContext (ctx : Context) : Option ReqContext :=
  ctx.reqContext

/-- The settings of a data source instance; `JSONData` is the raw configuration,
of a type `Raw` left open. -/
structure DataSourceInstanceSettings (Raw : Type) where
  ID : Int
  JSONData : Raw
  Updated : Nat

/-- The plugin context `backend.PluginContext`. -/
structure PluginContext (Raw : Type) where
  OrgID : Int
  DataSourceInstanceSettings : Option (DataSourceInstanceSettings Raw)

/-- The projection `datasources.DataSource` built for the header lookup. -/
structure DataSource (Json : Type) where
  ID : Int
  OrgID : Int
  JsonData : Json
  Updated : Nat

/-- The two collaborators whose bodies are outside this file, taken as
parameters: `simplejson.NewJson`, which parses the raw configuration or fails,
and `DataSource.ForwardHeaders`, which reads the configured header names. -/
structure Deps (Raw Json : Type) where
  NewJson : Raw → Except String Json
  ForwardHeaders : DataSource Json → List String

/-! ## Outbound carrier and trace -/

/-- The header state of an outbound request, the capability
`backend.ForwardHTTPHeaders`: the value held for each name, if any. -/
abbrev Carrier := String → Option String

/-- The capability method `SetHTTPHeader`: the entry of `key` becomes `value`,
every other entry stays. -/
def SetHTTPHeader (c : Carrier) (key value : String) : Carrier :=
  fun n => if n = key then some value else c n

/-- What `forwardHeaders` does besides returning: a warning record, a debug
record with its `header` attribute, or a `SetHTTPHeader` call. -/
inductive Event where
  | Warn (msg : String)
  | Debug (msg : String) (header : String)
  | SetHTTPHeader (key value : String)
  deriving DecidableEq, Repr

/-- The loop `for _, k := range headersToFoward` of `forwardHeaders`, on the
pair of the carrier's state and the trace so far. -/
def forwardLoop (hdr : Header) : List String → Carrier × List Event → Carrier × List Event
  | [], s => s
  | k :: ks, (c, t) =>
    match hdr.index k with
    | some _ =>
      forwardLoop hdr ks
        (SetHTTPHeader c k (hdr.Get k),
         t ++ [Event.Debug "Fowarding header: " k, Event.SetHTTPHeader k (hdr.Get k)])
    | none => forwardLoop hdr ks (c, t)

/-- The method `ForwardHeadersMiddleware.forwardHeaders`: returns the carrier `h`
as the call leaves it and the trace of the call. Past the first guard the request
context is non-nil, so the source's second test `reqCtx != nil` always takes
`req = reqCtx.Req`, the request matched here. -/
def forwardHeaders {Raw Json : Type} (d : Deps Raw Json) (ctx : Context)
    (pCtx : PluginContext Raw) (h : Option Carrier) : Option Carrier × List Event :=
  match h, FromContext ctx with
  | some c, some reqCtx =>
    match reqCtx.Req, reqCtx.SignedInUser with
    | some req, some _ =>
      match pCtx.DataSourceInstanceSettings with
      | some settings =>
        match d.NewJson settings.JSONData with
        | Except.error _ => (some c, [])
        | Except.ok jsonDataBytes =>
          let ds : DataSource Json :=
            { ID := settings.ID, OrgID := pCtx.OrgID, JsonData := jsonDataBytes,
              Updated := settings.Updated }
          let headersToFoward := d.ForwardHeaders ds
          if headersToFoward.length = 0 then
            (some c, [Event.Warn "No headers to forward"])
          else
            let s := forwardLoop req.Header headersToFoward (c, [])
            (some s.1, s.2)
      | none => (some c, [])
    | _, _ => (some c, [])
  | _, _ => (h, [])

/-! ## The decorator and its inner client -/

/-- An outbound plugin request (`backend.QueryDataRequest`,
`backend.CallResourceRequest`, `backend.CheckHealthRequest`): its plugin
context, its header state, which is what `SetHTTPHeader` writes, and the rest of
the request, which the middleware never reads. -/
structure Request (Raw Body : Type) where
  PluginContext : PluginContext Raw
  Headers : Carrier
  body : Body

/-- The interface `plugins.Client` of the wrapped client; a request is a pointer
and may be nil, a result is the pair of a response pointer and an error. -/
structure Client (Raw QBody RBody HBody QResp HResp Err Sender : Type) where
  QueryData : Context → Option (Request Raw QBody) → Option QResp × Option Err
  CallResource : Context → Option (Request Raw RBody) → Sender → Option Err
  CheckHealth : Context → Option (Request Raw HBody) → Option HResp × Option Err

/-- The struct `ForwardHeadersMiddleware`: the embedded `baseMiddleware` holds
the next client; the logger's records go to the trace. -/
structure ForwardHeadersMiddleware (Raw QBody RBody HBody QResp HResp Err Sender : Type) where
  next : Client Raw QBody RBody HBody QResp HResp Err Sender

/-- One step of an entry point: something `forwardHeaders` did, or a call of the
next client with the arguments `args`. -/
inductive Effect (A : Type) where
  | forward (e : Event)
  | next (args : A)

/-- What an entry point returns and, oldest first, what it did. -/
structure Outcome (A R : Type) where
  result : R
  trace : List (Effect A)

/-- The call `m.forwardHeaders(ctx, req.PluginContext, req)` of an entry point:
the carrier is the non-nil request itself, so the call leaves the request with
the header state `forwardHeaders` returns. -/
def forwardOnto {Raw Json Body : Type} (d : Deps Raw Json) (ctx : Context)
    (req : Request Raw Body) : Request Raw Body × List Event :=
  match forwardHeaders d ctx req.PluginContext (some req.Headers) with
  | (some c, t) => ({ req with Headers := c }, t)
  | (none, t) => (req, t)

section EntryPoints

variable {Raw Json QBody RBody HBody QResp HResp Err Sender : Type}

/-- The method `ForwardHeadersMiddleware.QueryData`. -/
def ForwardHeadersMiddleware.QueryData (d : Deps Raw Json)
    (m : ForwardHeadersMiddleware Raw QBody RBody HBody QResp HResp Err Sender)
    (ctx : Context) (req : Option (Request Raw QBody)) :
    Outcome (Context × Option (Request Raw QBody)) (Option QResp × Option Err) :=
  match req with
  | none => ⟨m.next.QueryData ctx none, [Effect.next (ctx, none)]⟩
  | some r =>
    let s := forwardOnto d ctx r
    ⟨m.next.QueryData ctx (some s.1), s.2.map Effect.forward ++ [Effect.next (ctx, some s.1)]⟩

/-- The method `ForwardHeadersMiddleware.CallResource`. -/
def ForwardHeadersMiddleware.CallResource (d : Deps Raw Json)
    (m : ForwardHeadersMiddleware Raw QBody RBody HBody QResp HResp Err Sender)
    (ctx : Context) (req : Option (Request Raw RBody)) (sender : Sender) :
    Outcome (Context × Option (Request Raw RBody) × Sender) (Option Err) :=
  match req with
  | none => ⟨m.next.CallResource ctx none sender, [Effect.next (ctx, none, sender)]⟩
  | some r =>
    let s := forwardOnto d ctx r
    ⟨m.next.CallResource ctx (some s.1) sender,
      s.2.map Effect.forward ++ [Effect.next (ctx, some s.1, sender)]⟩

/-- The method `ForwardHeadersMiddleware.CheckHealth`. -/
def ForwardHeadersMiddleware.CheckHealth (d : Deps Raw Json)
    (m : ForwardHeadersMiddleware Raw QBody RBody HBody QResp HResp Err Sender)
    (ctx : Context) (req : Option (Request Raw HBody)) :
    Outcome (Context × Option (Request Raw HBody)) (Option HResp × Option Err) :=
  match req with
  | none => ⟨m.next.CheckHealth ctx none, [Effect.next (ctx, none)]⟩
  | some r =>
    let s := forwardOnto d ctx r
    ⟨m.next.CheckHealth ctx (some s.1), s.2.map Effect.forward ++ [Effect.next (ctx, some s.1)]⟩

end EntryPoints

/-! ## Vocabulary of the properties -/

/-- Equality of two header names ignoring the case of ASCII letters. -/
def equalFold (a b : String) : Bool :=
  a.toList.map Char.toLower == b.toList.map Char.toLower

/-- Whether the header map has an entry whose name is `n` under some casing. -/
def Header.carries (hdr : Header) (n : String) : Bool :=
  hdr.any (fun p => equalFold p.1 n)

/-- The headers of the inbound request a call context carries, none when the
context has no request. -/
def inboundHeader (ctx : Context) : Header :=
  match FromContext ctx with
  | some reqCtx =>
    match reqCtx.Req with
    | some req => req.Header
    | none => []
  | none => []

/-- The header list a plugin context's data source configuration parses to:
`some H` when the settings are attached and their raw configuration parses. -/
def configuredHeaders {Raw Json : Type} (d : Deps Raw Json) (pCtx : PluginContext Raw) :
    Option (List String) :=
  match pCtx.DataSourceInstanceSettings with
  | some settings =>
    match d.NewJson settings.JSONData with
    | Except.ok j =>
      some (d.ForwardHeaders
        { ID := settings.ID, OrgID := pCtx.OrgID, JsonData := j, Updated := settings.Updated })
    | Except.error _ => none
  | none => none

/-- The `SetHTTPHeader` calls of a trace, in order, as (name, value) pairs. -/
def setCalls : List Event → List (String × String)
  | [] => []
  | Event.SetHTTPHeader k v :: t => (k, v) :: setCalls t
  | _ :: t => setCalls t

/-- The `header` attributes of the debug records of a trace, in order. -/
def debugHeaders : List Event → List String
  | [] => []
  | Event.Debug _ k :: t => k :: debugHeaders t
  | _ :: t => debugHeaders t

/-- The messages of the warning records of a trace, in order. -/
def warnings : List Event → List String
  | [] => []
  | Event.Warn msg :: t => msg :: warnings t
  | _ :: t => warnings t

/-- The argument tuples of the calls of the next client in a trace, in order. -/
def nextCalls {A : Type} : List (Effect A) → List A
  | [] => []
  | Effect.next a :: t => a :: nextCalls t
  | Effect.forward _ :: t => nextCalls t

/-- The events of `forwardHeaders` in an entry point's trace, in order. -/
def forwarded {A : Type} : List (Effect A) → List Event
  | [] => []
  | Effect.forward e :: t => e :: forwarded t
  | Effect.next _ :: t => forwarded t

/-- The header state a carrier reaches by a sequence of `SetHTTPHeader` calls. -/
def applyCalls : List (String × String) → Carrier → Carrier
  | [], c => c
  | (k, v) :: l, c => applyCalls l (SetHTTPHeader c k v)

/-- The pairs the loop forwards for a header list: one per position whose name is
a key of the inbound map, with the value `Get` returns for it. -/
def loopCalls (hdr : Header) (H : List String) : List (String × String) :=
  H.filterMap (fun k => if (hdr.index k).isSome then some (k, hdr.Get k) else none)

/-- A header list with the later occurrences of every repeated name removed. -/
def dropLaterDuplicates : List String → List String
  | [] => []
  | k :: ks => k :: (dropLaterDuplicates ks).filter (fun x => x != k)

/-- The two events the loop writes for one forwarded pair. -/
def pairEvents (p : String × String) : List Event :=
  [Event.Debug "Fowarding header: " p.1, Event.SetHTTPHeader p.1 p.2]

/-! ## A sample configuration store -/

/-- Raw configurations of the sample store: a document that does not parse, or
one that lists header names. -/
inductive SampleConfig where
  | malformed
  | headers (names : List String)

/-- The collaborators of the sample store: parsing fails on `malformed` and
otherwise yields the listed names, which `ForwardHeaders` returns. -/
def sampleDeps : Deps SampleConfig (List String) where
  NewJson := fun raw =>
    match raw with
    | SampleConfig.malformed => Except.error "invalid character"
    | SampleConfig.headers names => Except.ok names
  ForwardHeaders := fun ds => ds.JsonData

/-- A call context with a signed-in user and an inbound request with headers
`hdr`. -/
def sampleContext (hdr : Header) : Context :=
  { reqContext := some { Req := some { Header := hdr },
                         SignedInUser := some { UserID := 1, OrgID := 1 } } }

/-- A plugin context whose data source has the raw configuration `raw`. -/
def samplePluginContext (raw : SampleConfig) : PluginContext SampleConfig :=
  { OrgID := 1, DataSourceInstanceSettings := some { ID := 7, JSONData := raw, Updated := 0 } }

/-- A carrier with no header set. -/
def emptyCarrier : Carrier := fun _ => none

/-- An inner client that answers every call with no response and no error. -/
def sampleClient : Client SampleConfig Unit Unit Unit Unit Unit String Unit where
  QueryData := fun _ _ => (none, none)
  CallResource := fun _ _ _ => none
  CheckHealth := fun _ _ => (none, none)

/-- The decorator around the sample client. -/
def sampleMiddleware : ForwardHeadersMiddleware SampleConfig Unit Unit Unit Unit Unit String Unit :=
  { next := sampleClient }

/-- A request for the data source with raw configuration `raw`, no header set. -/
def sampleRequest (raw : SampleConfig) : Request SampleConfig Unit :=
  { PluginContext := samplePluginContext raw, Headers := emptyCarrier, body := () }

/-- The request `r1` is the object `r` after `forwardHeaders` ran on it under
`ctx`: same plugin context, same body, and the header state the call left. -/
def IsForwarded {Raw Json Body : Type} (d : Deps Raw Json) (ctx : Context)
    (r r1 : Request Raw Body) : Prop :=
  r1.PluginContext = r.PluginContext ∧ r1.body = r.body ∧
    some r1.Headers = (forwardHeaders d ctx r.PluginContext (some r.Headers)).1

/-! ## The loop and the carrier -/

theorem forwardLoop_eq (hdr : Header) (H : List String) (c : Carrier) (t : List Event) :
    forwardLoop hdr H (c, t)
      = (applyCalls (loopCalls hdr H) c, t ++ (loopCalls hdr H).flatMap pairEvents) := by
  induction H generalizing c t with
  | nil => simp [forwardLoop, loopCalls, applyCalls]
  | cons k ks ih =>
    cases hk : hdr.index k with
    | none =>
      have h1 : loopCalls hdr (k :: ks) = loopCalls hdr ks := by
        simp [loopCalls, List.filterMap_cons, hk]
      rw [h1]
      simp only [forwardLoop, hk]
      exact ih c t
    | some vs =>
      have h1 : loopCalls hdr (k :: ks) = (k, hdr.Get k) :: loopCalls hdr ks := by
        simp [loopCalls, List.filterMap_cons, hk]
      rw [h1]
      simp only [forwardLoop, hk]
      rw [ih]
      simp [applyCalls, pairEvents]

theorem setCalls_append (s t : List Event) : setCalls (s ++ t) = setCalls s ++ setCalls t := by
  induction s with
  | nil => rfl
  | cons e s ih => cases e <;> simp [setCalls, ih]

theorem debugHeaders_append (s t : List Event) :
    debugHeaders (s ++ t) = debugHeaders s ++ debugHeaders t := by
  induction s with
  | nil => rfl
  | cons e s ih => cases e <;> simp [debugHeaders, ih]

theorem warnings_append (s t : List Event) : warnings (s ++ t) = warnings s ++ warnings t := by
  induction s with
  | nil => rfl
  | cons e s ih => cases e <;> simp [warnings, ih]

theorem setCalls_pairs (l : List (String × String)) : setCalls (l.flatMap pairEvents) = l := by
  induction l with
  | nil => rfl
  | cons p l ih =>
    rw [List.flatMap_cons, setCalls_append, ih]
    rfl

theorem debugHeaders_pairs (l : List (String × String)) :
    debugHeaders (l.flatMap pairEvents) = l.map Prod.fst := by
  induction l with
  | nil => rfl
  | cons p l ih =>
    rw [List.flatMap_cons, debugHeaders_append, ih]
    rfl

theorem warnings_pairs (l : List (String × String)) : warnings (l.flatMap pairEvents) = [] := by
  induction l with
  | nil => rfl
  | cons p l ih =>
    rw [List.flatMap_cons, warnings_append, ih]
    rfl

/-- A name no call of the sequence sets keeps its entry. -/
theorem applyCalls_frame (l : List (String × String)) (c : Carrier) (n : String)
    (hn : ∀ v, (n, v) ∉ l) : applyCalls l c n = c n := by
  induction l generalizing c with
  | nil => rfl
  | cons p l ih =>
    obtain ⟨k, v⟩ := p
    simp only [applyCalls]
    rw [ih]
    · have hne : n ≠ k := by
        intro h
        exact hn v (by simp [h])
      simp [SetHTTPHeader, hne]
    · intro w hw
      exact hn w (List.mem_cons_of_mem _ hw)

/-- Two carriers that agree on every name a sequence does not set reach the same
state by it. -/
theorem applyCalls_congr (l : List (String × String)) (c1 c2 : Carrier)
    (h : ∀ n, (∀ v, (n, v) ∉ l) → c1 n = c2 n) : applyCalls l c1 = applyCalls l c2 := by
  induction l generalizing c1 c2 with
  | nil =>
    funext n
    exact h n (by simp)
  | cons p l ih =>
    obtain ⟨k, v⟩ := p
    simp only [applyCalls]
    apply ih
    intro n hn
    by_cases hk : n = k
    · simp [SetHTTPHeader, hk]
    · simp only [SetHTTPHeader, hk, if_false]
      apply h
      intro w hw
      rcases List.mem_cons.1 hw with h1 | h1
      · exact hk (by simpa using congrArg Prod.fst h1)
      · exact hn w h1

theorem applyCalls_idem (l : List (String × String)) (c : Carrier) :
    applyCalls l (applyCalls l c) = applyCalls l c :=
  applyCalls_congr l _ _ (fun n hn => applyCalls_frame l c n hn)

/-! ## The branches of `forwardHeaders` -/

section Branches

variable {Raw Json : Type} (d : Deps Raw Json) (ctx : Context) (pCtx : PluginContext Raw)

theorem forwardHeaders_nil_carrier : forwardHeaders d ctx pCtx none = (none, []) := by
  simp [forwardHeaders]

theorem forwardHeaders_no_context (h : Option Carrier) (hc : FromContext ctx = none) :
    forwardHeaders d ctx pCtx h = (h, []) := by
  cases h <;> simp [forwardHeaders, hc]

theorem forwardHeaders_no_request (h : Option Carrier) (rc : ReqContext)
    (hc : FromContext ctx = some rc) (hr : rc.Req = none) :
    forwardHeaders d ctx pCtx h = (h, []) := by
  cases h <;> simp [forwardHeaders, hc, hr]

theorem forwardHeaders_no_user (h : Option Carrier) (rc : ReqContext)
    (hc : FromContext ctx = some rc) (hu : rc.SignedInUser = none) :
    forwardHeaders d ctx pCtx h = (h, []) := by
  cases h with
  | none => simp [forwardHeaders]
  | some c => cases hr : rc.Req <;> simp [forwardHeaders, hc, hr, hu]

theorem forwardHeaders_no_settings (h : Option Carrier)
    (hs : pCtx.DataSourceInstanceSettings = none) :
    forwardHeaders d ctx pCtx h = (h, []) := by
  cases h with
  | none => simp [forwardHeaders]
  | some c =>
    cases hc : FromContext ctx with
    | none => simp [forwardHeaders, hc]
    | some rc =>
      cases hr : rc.Req <;> cases hu : rc.SignedInUser <;> simp [forwardHeaders, hc, hr, hu, hs]

/-- The branch past the guards: the carrier, the request context with its request
and principal, and the settings are all there. -/
theorem forwardHeaders_guarded (c : Carrier) (rc : ReqContext) (req : HttpRequest)
    (u : SignedInUser) (settings : DataSourceInstanceSettings Raw)
    (hc : FromContext ctx = some rc) (hr : rc.Req = some req) (hu : rc.SignedInUser = some u)
    (hs : pCtx.DataSourceInstanceSettings = some settings) :
    forwardHeaders d ctx pCtx (some c)
      = match d.NewJson settings.JSONData with
        | Except.error _ => (some c, [])
        | Except.ok j =>
          let H := d.ForwardHeaders
            { ID := settings.ID, OrgID := pCtx.OrgID, JsonData := j, Updated := settings.Updated }
          if H.length = 0 then (some c, [Event.Warn "No headers to forward"])
          else (some (applyCalls (loopCalls req.Header H) c),
                (loopCalls req.Header H).flatMap pairEvents) := by
  simp only [forwardHeaders, hc, hr, hu, hs]
  cases d.NewJson settings.JSONData with
  | error e => rfl
  | ok j =>
    simp only [forwardLoop_eq, List.nil_append]

end Branches

section Shape

variable {Raw Json : Type} (d : Deps Raw Json) (ctx : Context) (pCtx : PluginContext Raw)

/-- Every trace of `forwardHeaders` is empty, the single warning, or the pairs the
loop writes for the configured list over the inbound headers. -/
theorem forwardHeaders_trace_cases (h : Option Carrier) :
    (forwardHeaders d ctx pCtx h).2 = [] ∨
    (forwardHeaders d ctx pCtx h).2 = [Event.Warn "No headers to forward"] ∨
    ∃ H, configuredHeaders d pCtx = some H ∧
      (forwardHeaders d ctx pCtx h).2 = (loopCalls (inboundHeader ctx) H).flatMap pairEvents := by
  cases h with
  | none => left; simp [forwardHeaders]
  | some c =>
    cases hc : FromContext ctx with
    | none => left; rw [forwardHeaders_no_context d ctx pCtx _ hc]
    | some rc =>
      cases hr : rc.Req with
      | none => left; rw [forwardHeaders_no_request d ctx pCtx _ rc hc hr]
      | some req =>
        cases hu : rc.SignedInUser with
        | none => left; rw [forwardHeaders_no_user d ctx pCtx _ rc hc hu]
        | some u =>
          cases hs : pCtx.DataSourceInstanceSettings with
          | none => left; rw [forwardHeaders_no_settings d ctx pCtx _ hs]
          | some settings =>
            rw [forwardHeaders_guarded d ctx pCtx c rc req u settings hc hr hu hs]
            cases hj : d.NewJson settings.JSONData with
            | error e => left; rfl
            | ok j =>
              by_cases hl : (d.ForwardHeaders
                  { ID := settings.ID, OrgID := pCtx.OrgID, JsonData := j,
                    Updated := settings.Updated }).length = 0
              · right; left; simp [hl]
              · right; right
                refine ⟨d.ForwardHeaders
                  { ID := settings.ID, OrgID := pCtx.OrgID, JsonData := j,
                    Updated := settings.Updated }, ?_, ?_⟩
                · simp only [configuredHeaders, hs, hj]
                · simp [hl, inboundHeader, hc, hr]

/-- The carrier `forwardHeaders` returns is the received one after the
`SetHTTPHeader` calls of the trace, in order. -/
theorem forwardHeaders_carrier (h : Option Carrier) :
    (forwardHeaders d ctx pCtx h).1
      = h.map (applyCalls (setCalls (forwardHeaders d ctx pCtx h).2)) := by
  cases h with
  | none => simp [forwardHeaders]
  | some c =>
    cases hc : FromContext ctx with
    | none => rw [forwardHeaders_no_context d ctx pCtx _ hc]; rfl
    | some rc =>
      cases hr : rc.Req with
      | none => rw [forwardHeaders_no_request d ctx pCtx _ rc hc hr]; rfl
      | some req =>
        cases hu : rc.SignedInUser with
        | none => rw [forwardHeaders_no_user d ctx pCtx _ rc hc hu]; rfl
        | some u =>
          cases hs : pCtx.DataSourceInstanceSettings with
          | none => rw [forwardHeaders_no_settings d ctx pCtx _ hs]; rfl
          | some settings =>
            rw [forwardHeaders_guarded d ctx pCtx c rc req u settings hc hr hu hs]
            cases hj : d.NewJson settings.JSONData with
            | error e => rfl
            | ok j =>
              by_cases hl : (d.ForwardHeaders
                  { ID := settings.ID, OrgID := pCtx.OrgID, JsonData := j,
                    Updated := settings.Updated }).length = 0
              · simp [hl, setCalls, applyCalls]
              · simp [hl, setCalls_pairs]

/-- The trace of `forwardHeaders` does not depend on the carrier's header state. -/
theorem forwardHeaders_trace_indep (c1 c2 : Carrier) :
    (forwardHeaders d ctx pCtx (some c1)).2 = (forwardHeaders d ctx pCtx (some c2)).2 := by
  cases hc : FromContext ctx with
  | none => rw [forwardHeaders_no_context d ctx pCtx _ hc, forwardHeaders_no_context d ctx pCtx _ hc]
  | some rc =>
    cases hr : rc.Req with
    | none =>
      rw [forwardHeaders_no_request d ctx pCtx _ rc hc hr,
        forwardHeaders_no_request d ctx pCtx _ rc hc hr]
    | some req =>
      cases hu : rc.SignedInUser with
      | none =>
        rw [forwardHeaders_no_user d ctx pCtx _ rc hc hu,
          forwardHeaders_no_user d ctx pCtx _ rc hc hu]
      | some u =>
        cases hs : pCtx.DataSourceInstanceSettings with
        | none =>
          rw [forwardHeaders_no_settings d ctx pCtx _ hs,
            forwardHeaders_no_settings d ctx pCtx _ hs]
        | some settings =>
          rw [forwardHeaders_guarded d ctx pCtx c1 rc req u settings hc hr hu hs,
            forwardHeaders_guarded d ctx pCtx c2 rc req u settings hc hr hu hs]
          cases hj : d.NewJson settings.JSONData with
          | error e => rfl
          | ok j =>
            by_cases hl : (d.ForwardHeaders
                { ID := settings.ID, OrgID := pCtx.OrgID, JsonData := j,
                  Updated := settings.Updated }).length = 0
            · simp [hl]
            · simp [hl]

end Shape

/-! ## Keys of the inbound map -/

theorem carries_of_index (hdr : Header) (k : String) (vs : List String)
    (h : hdr.index k = some vs) : hdr.carries k = true := by
  induction hdr with
  | nil => simp [Header.index, List.lookup] at h
  | cons p l ih =>
    obtain ⟨a, b⟩ := p
    by_cases hk : k = a
    · subst hk
      simp [Header.carries, equalFold]
    · have h2 : Header.index l k = some vs := by
        have hb : (k == a) = false := by simpa using hk
        simpa [Header.index, List.lookup, hb] using h
      have := ih h2
      simp only [Header.carries, List.any_cons] at this ⊢
      simp [this]

theorem mem_loopCalls (hdr : Header) (H : List String) (n v : String)
    (h : (n, v) ∈ loopCalls hdr H) : n ∈ H ∧ (hdr.index n).isSome = true ∧ v = hdr.Get n := by
  simp only [loopCalls, List.mem_filterMap] at h
  obtain ⟨k, hk, hv⟩ := h
  by_cases hi : (hdr.index k).isSome = true
  · simp only [hi, if_true, Option.some.injEq, Prod.mk.injEq] at hv
    obtain ⟨h1, h2⟩ := hv
    subst h1
    exact ⟨hk, hi, h2.symm⟩
  · simp [hi] at hv

theorem mem_setCalls (t : List Event) (n v : String) :
    Event.SetHTTPHeader n v ∈ t ↔ (n, v) ∈ setCalls t := by
  induction t with
  | nil => simp [setCalls]
  | cons e t ih => cases e <;> simp [setCalls, ih]

/-! ## The entry points -/

section Entry

variable {Raw Json Body : Type} (d : Deps Raw Json) (ctx : Context)

theorem forwardOnto_eq (r : Request Raw Body) :
    forwardOnto d ctx r
      = (⟨r.PluginContext,
          applyCalls (setCalls (forwardHeaders d ctx r.PluginContext (some r.Headers)).2) r.Headers,
          r.body⟩,
         (forwardHeaders d ctx r.PluginContext (some r.Headers)).2) := by
  have h := forwardHeaders_carrier d ctx r.PluginContext (some r.Headers)
  unfold forwardOnto
  generalize forwardHeaders d ctx r.PluginContext (some r.Headers) = p at h
  obtain ⟨c, t⟩ := p
  simp only [Option.map_some'] at h
  subst h
  rfl

theorem forwardOnto_isForwarded (r : Request Raw Body) :
    IsForwarded d ctx r (forwardOnto d ctx r).1 := by
  rw [forwardOnto_eq]
  refine ⟨rfl, rfl, ?_⟩
  rw [forwardHeaders_carrier]
  rfl

/-- A request on which `forwardHeaders` is a no-op comes out of `forwardOnto` as it
went in. -/
theorem forwardOnto_of_noop (r : Request Raw Body) (t : List Event)
    (h : forwardHeaders d ctx r.PluginContext (some r.Headers) = (some r.Headers, t)) :
    forwardOnto d ctx r = (r, t) := by
  unfold forwardOnto
  rw [h]

theorem nextCalls_forward {A : Type} (t : List Event) (l : List (Effect A)) :
    nextCalls (t.map Effect.forward ++ l) = nextCalls l := by
  induction t with
  | nil => rfl
  | cons e t ih => simpa [nextCalls] using ih

theorem forwarded_forward {A : Type} (t : List Event) (a : A) :
    forwarded (t.map Effect.forward ++ [Effect.next a]) = t := by
  induction t with
  | nil => rfl
  | cons e t ih => simpa [forwarded] using ih

end Entry

/-! ## Repeated names in the configured list -/

theorem mem_dropLaterDuplicates (H : List String) (n : String) :
    n ∈ dropLaterDuplicates H ↔ n ∈ H := by
  induction H with
  | nil => simp [dropLaterDuplicates]
  | cons k ks ih =>
    simp only [dropLaterDuplicates, List.mem_cons, List.mem_filter, ih]
    by_cases hk : n = k
    · simp [hk]
    · simp [hk]

/-- The state after a sequence of calls whose values are a function of the name:
a name the sequence sets holds that function's value, any other its old entry. -/
theorem applyCalls_of_functional (f : String → String) (l : List (String × String))
    (hf : ∀ p ∈ l, p.2 = f p.1) (c : Carrier) (n : String) :
    applyCalls l c n = if n ∈ l.map Prod.fst then some (f n) else c n := by
  induction l generalizing c with
  | nil => simp [applyCalls]
  | cons p l ih =>
    obtain ⟨k, v⟩ := p
    have hv : v = f k := hf (k, v) (List.mem_cons_self _ _)
    simp only [applyCalls]
    rw [ih (fun q hq => hf q (List.mem_cons_of_mem _ hq))]
    by_cases h1 : n ∈ l.map Prod.fst
    · simp [h1]
    · by_cases h2 : n = k
      · subst h2
        simp [h1, SetHTTPHeader, hv]
      · simp [h1, h2, SetHTTPHeader]

theorem mem_loopCalls_fst (hdr : Header) (H : List String) (n : String) :
    n ∈ (loopCalls hdr H).map Prod.fst ↔ n ∈ H ∧ (hdr.index n).isSome = true := by
  constructor
  · intro h
    obtain ⟨⟨a, b⟩, hp, rfl⟩ := List.mem_map.1 h
    exact ⟨(mem_loopCalls _ _ _ _ hp).1, (mem_loopCalls _ _ _ _ hp).2.1⟩
  · rintro ⟨h1, h2⟩
    refine List.mem_map.2 ⟨(n, hdr.Get n), ?_, rfl⟩
    simp only [loopCalls, List.mem_filterMap]
    exact ⟨n, h1, by simp [h2]⟩

/-- The loop reaches the same carrier state on a header list and on the list with
its later duplicates removed: a repeated name is set again to the same value. -/
theorem applyCalls_loopCalls_dropLaterDuplicates (hdr : Header) (H : List String)
    (c : Carrier) :
    applyCalls (loopCalls hdr (dropLaterDuplicates H)) c = applyCalls (loopCalls hdr H) c := by
  funext n
  rw [applyCalls_of_functional hdr.Get _ (fun p hp => (mem_loopCalls _ _ _ _ hp).2.2),
    applyCalls_of_functional hdr.Get _ (fun p hp => (mem_loopCalls _ _ _ _ hp).2.2)]
  simp only [mem_loopCalls_fst, mem_dropLaterDuplicates]

/-! ## Properties of the specification -/

section Claims

variable {Raw Json QBody RBody HBody QResp HResp Err Sender : Type}

/-- C1, evaluated on the code: the data source lists the header name as
`x-user-id` and the inbound request carries `X-User-Id: 42`, a name equal to
the configured one ignoring letter case; `forwardHeaders` passes every guard,
finds no key `x-user-id` in the inbound map, makes no `SetHTTPHeader` call and
leaves the carrier without the header. -/
theorem C1_case_differing_header_is_not_forwarded :
    Header.index [("X-User-Id", ["42"])] "X-User-Id" = some ["42"] ∧
    equalFold "X-User-Id" "x-user-id" = true ∧
    configuredHeaders sampleDeps (samplePluginContext (SampleConfig.headers ["x-user-id"]))
      = some ["x-user-id"] ∧
    (forwardHeaders sampleDeps (sampleContext [("X-User-Id", ["42"])])
      (samplePluginContext (SampleConfig.headers ["x-user-id"])) (some emptyCarrier)).2 = [] ∧
    (forwardHeaders sampleDeps (sampleContext [("X-User-Id", ["42"])])
      (samplePluginContext (SampleConfig.headers ["x-user-id"])) (some emptyCarrier)).1.map
        (fun c => c "x-user-id") = some none := by
  decide

/-- C2: for every input of `forwardHeaders` and every name `n`, if `n` is not in
the list the configuration parses to, or the inbound request carries no header
named `n` under any casing, then the trace has no `SetHTTPHeader` call with name
`n` and the carrier's entry for `n` is after the call what it was before. -/
theorem C2_unlisted_or_absent_name_is_untouched (d : Deps Raw Json) (ctx : Context)
    (pCtx : PluginContext Raw) (h : Option Carrier) (n : String)
    (hn : (∀ H, configuredHeaders d pCtx = some H → n ∉ H) ∨
          (inboundHeader ctx).carries n = false) :
    (∀ v, Event.SetHTTPHeader n v ∉ (forwardHeaders d ctx pCtx h).2) ∧
    (forwardHeaders d ctx pCtx h).1.map (fun c => c n) = h.map (fun c => c n) := by
  have key : ∀ v, (n, v) ∉ setCalls (forwardHeaders d ctx pCtx h).2 := by
    intro v hv
    rcases forwardHeaders_trace_cases d ctx pCtx h with h0 | h0 | ⟨H, hH, h0⟩
    · rw [h0] at hv; simp [setCalls] at hv
    · rw [h0] at hv; simp [setCalls] at hv
    · rw [h0, setCalls_pairs] at hv
      obtain ⟨h1, h2, _⟩ := mem_loopCalls _ _ _ _ hv
      rcases hn with hn | hn
      · exact hn H hH h1
      · cases hi : (inboundHeader ctx).index n with
        | none => simp [hi] at h2
        | some vs =>
          have := carries_of_index _ _ _ hi
          rw [hn] at this
          exact Bool.noConfusion this
  refine ⟨fun v hv => key v ((mem_setCalls _ _ _).1 hv), ?_⟩
  rw [forwardHeaders_carrier]
  cases h with
  | none => rfl
  | some c =>
    simp only [Option.map_some']
    rw [applyCalls_frame _ _ _ key]

/-- C2 on the scenario of the specification: inbound `X-User-Id: 42`, configured
list `X-User-Id`, `X-Trace`, no inbound `X-Trace`; the entry `X-Trace` of the
carrier is untouched, and `X-User-Id` is set to `42`. -/
theorem C2_unlisted_or_absent_name_is_untouched_witness :
    (inboundHeader (sampleContext [("X-User-Id", ["42"])])).carries "X-Trace" = false ∧
    ((∀ v, Event.SetHTTPHeader "X-Trace" v ∉
        (forwardHeaders sampleDeps (sampleContext [("X-User-Id", ["42"])])
          (samplePluginContext (SampleConfig.headers ["X-User-Id", "X-Trace"]))
          (some emptyCarrier)).2) ∧
      (forwardHeaders sampleDeps (sampleContext [("X-User-Id", ["42"])])
          (samplePluginContext (SampleConfig.headers ["X-User-Id", "X-Trace"]))
          (some emptyCarrier)).1.map (fun c => c "X-Trace")
        = (some emptyCarrier).map (fun c => c "X-Trace")) ∧
    (forwardHeaders sampleDeps (sampleContext [("X-User-Id", ["42"])])
        (samplePluginContext (SampleConfig.headers ["X-User-Id", "X-Trace"]))
        (some emptyCarrier)).1.map (fun c => c "X-User-Id") = some (some "42") :=
  ⟨by decide,
   C2_unlisted_or_absent_name_is_untouched sampleDeps (sampleContext [("X-User-Id", ["42"])])
     (samplePluginContext (SampleConfig.headers ["X-User-Id", "X-Trace"])) (some emptyCarrier)
     "X-Trace" (Or.inr (by decide)),
   by decide⟩

/-- C3: for each of `QueryData`, `CallResource` and `CheckHealth`, every call
context, every non-nil request and every inner client, the trace has exactly one
call of the inner client's same operation, made with the received context, the
received request object as `forwardHeaders` left it (and the received sender),
after exactly the events of `forwardHeaders`; the result is the inner client's
result and error for that call. -/
theorem C3_entry_points_delegate_exactly_once (d : Deps Raw Json)
    (m : ForwardHeadersMiddleware Raw QBody RBody HBody QResp HResp Err Sender)
    (ctx : Context) (q : Request Raw QBody) (r : Request Raw RBody) (k : Request Raw HBody)
    (sender : Sender) :
    (∃ q1, IsForwarded d ctx q q1 ∧
      nextCalls (m.QueryData d ctx (some q)).trace = [(ctx, some q1)] ∧
      forwarded (m.QueryData d ctx (some q)).trace
        = (forwardHeaders d ctx q.PluginContext (some q.Headers)).2 ∧
      (m.QueryData d ctx (some q)).result = m.next.QueryData ctx (some q1)) ∧
    (∃ r1, IsForwarded d ctx r r1 ∧
      nextCalls (m.CallResource d ctx (some r) sender).trace = [(ctx, some r1, sender)] ∧
      forwarded (m.CallResource d ctx (some r) sender).trace
        = (forwardHeaders d ctx r.PluginContext (some r.Headers)).2 ∧
      (m.CallResource d ctx (some r) sender).result = m.next.CallResource ctx (some r1) sender) ∧
    (∃ k1, IsForwarded d ctx k k1 ∧
      nextCalls (m.CheckHealth d ctx (some k)).trace = [(ctx, some k1)] ∧
      forwarded (m.CheckHealth d ctx (some k)).trace
        = (forwardHeaders d ctx k.PluginContext (some k.Headers)).2 ∧
      (m.CheckHealth d ctx (some k)).result = m.next.CheckHealth ctx (some k1)) := by
  refine ⟨⟨(forwardOnto d ctx q).1, forwardOnto_isForwarded d ctx q, ?_, ?_, rfl⟩,
    ⟨(forwardOnto d ctx r).1, forwardOnto_isForwarded d ctx r, ?_, ?_, rfl⟩,
    ⟨(forwardOnto d ctx k).1, forwardOnto_isForwarded d ctx k, ?_, ?_, rfl⟩⟩
  · simp only [ForwardHeadersMiddleware.QueryData, nextCalls_forward, nextCalls]
  · simp only [ForwardHeadersMiddleware.QueryData, forwarded_forward, forwardOnto_eq]
  · simp only [ForwardHeadersMiddleware.CallResource, nextCalls_forward, nextCalls]
  · simp only [ForwardHeadersMiddleware.CallResource, forwarded_forward, forwardOnto_eq]
  · simp only [ForwardHeadersMiddleware.CheckHealth, nextCalls_forward, nextCalls]
  · simp only [ForwardHeadersMiddleware.CheckHealth, forwarded_forward, forwardOnto_eq]

/-- C4: with a nil request, each of `QueryData`, `CallResource` and `CheckHealth`
does nothing but call the inner client once with the received context, the nil
request (and the received sender), with no event of `forwardHeaders` in the
trace, and returns that call's result and error. -/
theorem C4_nil_request_delegates_directly (d : Deps Raw Json)
    (m : ForwardHeadersMiddleware Raw QBody RBody HBody QResp HResp Err Sender)
    (ctx : Context) (sender : Sender) :
    ((m.QueryData d ctx none).trace = [Effect.next (ctx, none)] ∧
      (m.QueryData d ctx none).result = m.next.QueryData ctx none) ∧
    ((m.CallResource d ctx none sender).trace = [Effect.next (ctx, none, sender)] ∧
      (m.CallResource d ctx none sender).result = m.next.CallResource ctx none sender) ∧
    ((m.CheckHealth d ctx none).trace = [Effect.next (ctx, none)] ∧
      (m.CheckHealth d ctx none).result = m.next.CheckHealth ctx none) :=
  ⟨⟨rfl, rfl⟩, ⟨rfl, rfl⟩, ⟨rfl, rfl⟩⟩

end Claims

section Failures

variable {Raw Json QBody RBody HBody QResp HResp Err Sender : Type}

/-- The three entry points on a request that `forwardHeaders` leaves as it is
with the events `t`: each makes those events and then one call of the inner
client with the received arguments, whose result it returns. -/
theorem entry_points_of_noop (d : Deps Raw Json)
    (m : ForwardHeadersMiddleware Raw QBody RBody HBody QResp HResp Err Sender)
    (ctx : Context) (pCtx : PluginContext Raw) (c : Carrier) (t : List Event)
    (h : forwardHeaders d ctx pCtx (some c) = (some c, t))
    (qb : QBody) (rb : RBody) (hb : HBody) (sender : Sender) :
    ((m.QueryData d ctx (some ⟨pCtx, c, qb⟩)).trace
        = t.map Effect.forward ++ [Effect.next (ctx, some ⟨pCtx, c, qb⟩)] ∧
      (m.QueryData d ctx (some ⟨pCtx, c, qb⟩)).result
        = m.next.QueryData ctx (some ⟨pCtx, c, qb⟩)) ∧
    ((m.CallResource d ctx (some ⟨pCtx, c, rb⟩) sender).trace
        = t.map Effect.forward ++ [Effect.next (ctx, some ⟨pCtx, c, rb⟩, sender)] ∧
      (m.CallResource d ctx (some ⟨pCtx, c, rb⟩) sender).result
        = m.next.CallResource ctx (some ⟨pCtx, c, rb⟩) sender) ∧
    ((m.CheckHealth d ctx (some ⟨pCtx, c, hb⟩)).trace
        = t.map Effect.forward ++ [Effect.next (ctx, some ⟨pCtx, c, hb⟩)] ∧
      (m.CheckHealth d ctx (some ⟨pCtx, c, hb⟩)).result
        = m.next.CheckHealth ctx (some ⟨pCtx, c, hb⟩)) := by
  have hq := forwardOnto_of_noop d ctx (⟨pCtx, c, qb⟩ : Request Raw QBody) t h
  have hr := forwardOnto_of_noop d ctx (⟨pCtx, c, rb⟩ : Request Raw RBody) t h
  have hh := forwardOnto_of_noop d ctx (⟨pCtx, c, hb⟩ : Request Raw HBody) t h
  refine ⟨⟨?_, ?_⟩, ⟨?_, ?_⟩, ⟨?_, ?_⟩⟩
  · simp only [ForwardHeadersMiddleware.QueryData, hq]
  · simp only [ForwardHeadersMiddleware.QueryData, hq]
  · simp only [ForwardHeadersMiddleware.CallResource, hr]
  · simp only [ForwardHeadersMiddleware.CallResource, hr]
  · simp only [ForwardHeadersMiddleware.CheckHealth, hh]
  · simp only [ForwardHeadersMiddleware.CheckHealth, hh]

/-- C5: if the carrier is nil, or the call context has no request context, or
the request context has no inbound request or no signed-in user, or the plugin
context has no data source settings, then `forwardHeaders` returns the carrier as
it received it with an empty trace (no warning, no debug record, no
`SetHTTPHeader` call); and an entry point called with a request that has this
carrier state and plugin context (nil when the carrier is nil) makes no event and
exactly one call of the inner client, with the received context, request and
sender, whose result it returns. -/
theorem C5_guards_make_forwardHeaders_a_silent_noop (d : Deps Raw Json)
    (m : ForwardHeadersMiddleware Raw QBody RBody HBody QResp HResp Err Sender)
    (ctx : Context) (pCtx : PluginContext Raw) (h : Option Carrier)
    (qb : QBody) (rb : RBody) (hb : HBody) (sender : Sender)
    (hg : h = none ∨ FromContext ctx = none ∨
          (∃ rc, FromContext ctx = some rc ∧ (rc.Req = none ∨ rc.SignedInUser = none)) ∨
          pCtx.DataSourceInstanceSettings = none) :
    forwardHeaders d ctx pCtx h = (h, []) ∧
    ((m.QueryData d ctx (h.map (fun c => ⟨pCtx, c, qb⟩))).trace
        = [Effect.next (ctx, h.map (fun c => ⟨pCtx, c, qb⟩))] ∧
      (m.QueryData d ctx (h.map (fun c => ⟨pCtx, c, qb⟩))).result
        = m.next.QueryData ctx (h.map (fun c => ⟨pCtx, c, qb⟩))) ∧
    ((m.CallResource d ctx (h.map (fun c => ⟨pCtx, c, rb⟩)) sender).trace
        = [Effect.next (ctx, h.map (fun c => ⟨pCtx, c, rb⟩), sender)] ∧
      (m.CallResource d ctx (h.map (fun c => ⟨pCtx, c, rb⟩)) sender).result
        = m.next.CallResource ctx (h.map (fun c => ⟨pCtx, c, rb⟩)) sender) ∧
    ((m.CheckHealth d ctx (h.map (fun c => ⟨pCtx, c, hb⟩))).trace
        = [Effect.next (ctx, h.map (fun c => ⟨pCtx, c, hb⟩))] ∧
      (m.CheckHealth d ctx (h.map (fun c => ⟨pCtx, c, hb⟩))).result
        = m.next.CheckHealth ctx (h.map (fun c => ⟨pCtx, c, hb⟩))) := by
  have h0 : forwardHeaders d ctx pCtx h = (h, []) := by
    rcases hg with hg | hg | ⟨rc, hc, hg | hg⟩ | hg
    · subst hg; exact forwardHeaders_nil_carrier d ctx pCtx
    · exact forwardHeaders_no_context d ctx pCtx h hg
    · exact forwardHeaders_no_request d ctx pCtx h rc hc hg
    · exact forwardHeaders_no_user d ctx pCtx h rc hc hg
    · exact forwardHeaders_no_settings d ctx pCtx h hg
  refine ⟨h0, ?_⟩
  cases h with
  | none => exact ⟨⟨rfl, rfl⟩, ⟨rfl, rfl⟩, ⟨rfl, rfl⟩⟩
  | some c => exact entry_points_of_noop d m ctx pCtx c [] h0 qb rb hb sender

/-- C5 on a call context without request context: the guard holds, the carrier
comes back with an empty trace and `QueryData` only delegates. -/
theorem C5_guards_make_forwardHeaders_a_silent_noop_witness :
    FromContext { reqContext := none } = none ∧
    (forwardHeaders sampleDeps { reqContext := none }
        (samplePluginContext (SampleConfig.headers ["X-User-Id"])) (some emptyCarrier)).2 = [] ∧
    (sampleMiddleware.QueryData sampleDeps { reqContext := none }
        (some (sampleRequest (SampleConfig.headers ["X-User-Id"])))).trace
      = [Effect.next ({ reqContext := none },
          some (sampleRequest (SampleConfig.headers ["X-User-Id"])))] :=
  have w := C5_guards_make_forwardHeaders_a_silent_noop sampleDeps sampleMiddleware
    { reqContext := none } (samplePluginContext (SampleConfig.headers ["X-User-Id"]))
    (some emptyCarrier) () () () () (Or.inr (Or.inl rfl))
  ⟨rfl, congrArg Prod.snd w.1, w.2.1.1⟩

/-- C6: when the carrier, the request context, its inbound request, its signed-in
user and the data source settings are all present and the raw configuration
fails to parse, `forwardHeaders` returns the carrier unchanged with an empty
trace (no `SetHTTPHeader` call, no warning, no debug record), and each entry
point makes no event and one call of the inner client with the received
arguments, returning exactly that call's result and error. -/
theorem C6_malformed_configuration_forwards_nothing (d : Deps Raw Json)
    (m : ForwardHeadersMiddleware Raw QBody RBody HBody QResp HResp Err Sender)
    (ctx : Context) (pCtx : PluginContext Raw) (c : Carrier)
    (rc : ReqContext) (req : HttpRequest) (u : SignedInUser)
    (settings : DataSourceInstanceSettings Raw) (e : String)
    (qb : QBody) (rb : RBody) (hb : HBody) (sender : Sender)
    (hc : FromContext ctx = some rc) (hr : rc.Req = some req) (hu : rc.SignedInUser = some u)
    (hs : pCtx.DataSourceInstanceSettings = some settings)
    (hj : d.NewJson settings.JSONData = Except.error e) :
    forwardHeaders d ctx pCtx (some c) = (some c, []) ∧
    ((m.QueryData d ctx (some ⟨pCtx, c, qb⟩)).trace = [Effect.next (ctx, some ⟨pCtx, c, qb⟩)] ∧
      (m.QueryData d ctx (some ⟨pCtx, c, qb⟩)).result
        = m.next.QueryData ctx (some ⟨pCtx, c, qb⟩)) ∧
    ((m.CallResource d ctx (some ⟨pCtx, c, rb⟩) sender).trace
        = [Effect.next (ctx, some ⟨pCtx, c, rb⟩, sender)] ∧
      (m.CallResource d ctx (some ⟨pCtx, c, rb⟩) sender).result
        = m.next.CallResource ctx (some ⟨pCtx, c, rb⟩) sender) ∧
    ((m.CheckHealth d ctx (some ⟨pCtx, c, hb⟩)).trace = [Effect.next (ctx, some ⟨pCtx, c, hb⟩)] ∧
      (m.CheckHealth d ctx (some ⟨pCtx, c, hb⟩)).result
        = m.next.CheckHealth ctx (some ⟨pCtx, c, hb⟩)) := by
  have h0 : forwardHeaders d ctx pCtx (some c) = (some c, []) := by
    rw [forwardHeaders_guarded d ctx pCtx c rc req u settings hc hr hu hs, hj]
  exact ⟨h0, entry_points_of_noop d m ctx pCtx c [] h0 qb rb hb sender⟩

/-- C6 on the sample store's malformed document, with an inbound `X-User-Id`. -/
theorem C6_malformed_configuration_forwards_nothing_witness :
    sampleDeps.NewJson SampleConfig.malformed = Except.error "invalid character" ∧
    (forwardHeaders sampleDeps (sampleContext [("X-User-Id", ["42"])])
        (samplePluginContext SampleConfig.malformed) (some emptyCarrier)).2 = [] ∧
    (sampleMiddleware.QueryData sampleDeps (sampleContext [("X-User-Id", ["42"])])
        (some (sampleRequest SampleConfig.malformed))).result
      = sampleClient.QueryData (sampleContext [("X-User-Id", ["42"])])
          (some (sampleRequest SampleConfig.malformed)) :=
  have w := C6_malformed_configuration_forwards_nothing sampleDeps sampleMiddleware
    (sampleContext [("X-User-Id", ["42"])]) (samplePluginContext SampleConfig.malformed)
    emptyCarrier { Req := some { Header := [("X-User-Id", ["42"])] },
                   SignedInUser := some { UserID := 1, OrgID := 1 } }
    { Header := [("X-User-Id", ["42"])] } { UserID := 1, OrgID := 1 }
    { ID := 7, JSONData := SampleConfig.malformed, Updated := 0 } "invalid character"
    () () () () rfl rfl rfl rfl rfl
  ⟨rfl, congrArg Prod.snd w.1, w.2.1.2⟩

/-- C7: when every guard passes and the configuration parses to an empty header
list, the trace of `forwardHeaders` is the single warning `No headers to
forward`, so it has one warning, no debug record and no `SetHTTPHeader` call, the
carrier is unchanged, and each entry point makes that warning and then exactly
one call of the inner client, with the received arguments. -/
theorem C7_empty_header_list_warns_once (d : Deps Raw Json)
    (m : ForwardHeadersMiddleware Raw QBody RBody HBody QResp HResp Err Sender)
    (ctx : Context) (pCtx : PluginContext Raw) (c : Carrier)
    (rc : ReqContext) (req : HttpRequest) (u : SignedInUser)
    (settings : DataSourceInstanceSettings Raw) (j : Json)
    (qb : QBody) (rb : RBody) (hb : HBody) (sender : Sender)
    (hc : FromContext ctx = some rc) (hr : rc.Req = some req) (hu : rc.SignedInUser = some u)
    (hs : pCtx.DataSourceInstanceSettings = some settings)
    (hj : d.NewJson settings.JSONData = Except.ok j)
    (hH : d.ForwardHeaders
      { ID := settings.ID, OrgID := pCtx.OrgID, JsonData := j, Updated := settings.Updated } = []) :
    forwardHeaders d ctx pCtx (some c) = (some c, [Event.Warn "No headers to forward"]) ∧
    (warnings (forwardHeaders d ctx pCtx (some c)).2).length = 1 ∧
    debugHeaders (forwardHeaders d ctx pCtx (some c)).2 = [] ∧
    setCalls (forwardHeaders d ctx pCtx (some c)).2 = [] ∧
    ((m.QueryData d ctx (some ⟨pCtx, c, qb⟩)).trace
        = [Effect.forward (Event.Warn "No headers to forward"),
           Effect.next (ctx, some ⟨pCtx, c, qb⟩)] ∧
      nextCalls (m.QueryData d ctx (some ⟨pCtx, c, qb⟩)).trace
        = [(ctx, some ⟨pCtx, c, qb⟩)]) ∧
    ((m.CallResource d ctx (some ⟨pCtx, c, rb⟩) sender).trace
        = [Effect.forward (Event.Warn "No headers to forward"),
           Effect.next (ctx, some ⟨pCtx, c, rb⟩, sender)] ∧
      nextCalls (m.CallResource d ctx (some ⟨pCtx, c, rb⟩) sender).trace
        = [(ctx, some ⟨pCtx, c, rb⟩, sender)]) ∧
    ((m.CheckHealth d ctx (some ⟨pCtx, c, hb⟩)).trace
        = [Effect.forward (Event.Warn "No headers to forward"),
           Effect.next (ctx, some ⟨pCtx, c, hb⟩)] ∧
      nextCalls (m.CheckHealth d ctx (some ⟨pCtx, c, hb⟩)).trace
        = [(ctx, some ⟨pCtx, c, hb⟩)]) := by
  have h0 : forwardHeaders d ctx pCtx (some c)
      = (some c, [Event.Warn "No headers to forward"]) := by
    rw [forwardHeaders_guarded d ctx pCtx c rc req u settings hc hr hu hs, hj]
    simp [hH]
  have w := entry_points_of_noop d m ctx pCtx c _ h0 qb rb hb sender
  refine ⟨h0, ?_, ?_, ?_, ⟨w.1.1, ?_⟩, ⟨w.2.1.1, ?_⟩, ⟨w.2.2.1, ?_⟩⟩
  · rw [h0]; rfl
  · rw [h0]; rfl
  · rw [h0]; rfl
  · rw [w.1.1]; rfl
  · rw [w.2.1.1]; rfl
  · rw [w.2.2.1]; rfl

/-- C7 on the sample store's document with an empty header list. -/
theorem C7_empty_header_list_warns_once_witness :
    sampleDeps.ForwardHeaders { ID := 7, OrgID := 1, JsonData := [], Updated := 0 } = [] ∧
    (forwardHeaders sampleDeps (sampleContext [("X-User-Id", ["42"])])
        (samplePluginContext (SampleConfig.headers [])) (some emptyCarrier)).2
      = [Event.Warn "No headers to forward"] :=
  have w := C7_empty_header_list_warns_once sampleDeps sampleMiddleware
    (sampleContext [("X-User-Id", ["42"])]) (samplePluginContext (SampleConfig.headers []))
    emptyCarrier { Req := some { Header := [("X-User-Id", ["42"])] },
                   SignedInUser := some { UserID := 1, OrgID := 1 } }
    { Header := [("X-User-Id", ["42"])] } { UserID := 1, OrgID := 1 }
    { ID := 7, JSONData := SampleConfig.headers [], Updated := 0 } []
    () () () () rfl rfl rfl rfl rfl rfl
  ⟨rfl, congrArg Prod.snd w.1⟩

end Failures

section Relational

variable {Raw Json : Type}

/-- C8: for every call context, plugin context and carrier, running
`forwardHeaders` again on the carrier the first run returned, with the same
context and plugin context, returns the carrier in the same header state. -/
theorem C8_forwardHeaders_is_idempotent_on_the_carrier (d : Deps Raw Json) (ctx : Context)
    (pCtx : PluginContext Raw) (h : Option Carrier) :
    (forwardHeaders d ctx pCtx (forwardHeaders d ctx pCtx h).1).1
      = (forwardHeaders d ctx pCtx h).1 := by
  cases h with
  | none => simp [forwardHeaders_nil_carrier]
  | some c =>
    have h1 := forwardHeaders_carrier d ctx pCtx (some c)
    simp only [Option.map_some'] at h1
    rw [h1, forwardHeaders_carrier d ctx pCtx (some _)]
    simp only [Option.map_some']
    rw [forwardHeaders_trace_indep d ctx pCtx _ c, applyCalls_idem]

/-- C9, evaluated on the code: the data source lists `x-trace` and the inbound
header map holds `abc` under the key `x-trace`; `forwardHeaders` finds the key,
then reads the value under the canonical name `X-Trace`, which the map does not
hold, and calls `SetHTTPHeader` with the empty string instead of `abc`. With the
configured name `x-user-id` and the inbound header `X-User-Id: 42` it makes no
call at all. -/
theorem C9_forwarded_value_is_not_the_inbound_value :
    Header.index [("x-trace", ["abc"])] "x-trace" = some ["abc"] ∧
    configuredHeaders sampleDeps (samplePluginContext (SampleConfig.headers ["x-trace"]))
      = some ["x-trace"] ∧
    setCalls (forwardHeaders sampleDeps (sampleContext [("x-trace", ["abc"])])
      (samplePluginContext (SampleConfig.headers ["x-trace"])) (some emptyCarrier)).2
      = [("x-trace", "")] ∧
    Header.carries [("X-User-Id", ["42"])] "x-user-id" = true ∧
    setCalls (forwardHeaders sampleDeps (sampleContext [("X-User-Id", ["42"])])
      (samplePluginContext (SampleConfig.headers ["x-user-id"])) (some emptyCarrier)).2
      = [] := by
  decide

/-- C10: in every run of `forwardHeaders` the trace is its warnings followed by,
for each `SetHTTPHeader` call in order, the debug record naming the call's header
and then the call itself; so the debug records name, position by position, the
headers of the calls, there are as many debug records as calls, and no debug
record names a header that is not a key of the inbound header map. -/
theorem C10_debug_records_track_set_calls (d : Deps Raw Json) (ctx : Context)
    (pCtx : PluginContext Raw) (h : Option Carrier) :
    (forwardHeaders d ctx pCtx h).2
      = (warnings (forwardHeaders d ctx pCtx h).2).map Event.Warn
        ++ (setCalls (forwardHeaders d ctx pCtx h).2).flatMap
            (fun p => [Event.Debug "Fowarding header: " p.1, Event.SetHTTPHeader p.1 p.2]) ∧
    debugHeaders (forwardHeaders d ctx pCtx h).2
      = (setCalls (forwardHeaders d ctx pCtx h).2).map Prod.fst ∧
    (debugHeaders (forwardHeaders d ctx pCtx h).2).length
      = (setCalls (forwardHeaders d ctx pCtx h).2).length ∧
    (∀ k, (inboundHeader ctx).index k = none → k ∉ debugHeaders (forwardHeaders d ctx pCtx h).2) ∧
    (∀ k, (inboundHeader ctx).carries k = false →
      k ∉ debugHeaders (forwardHeaders d ctx pCtx h).2) := by
  have hexact : ∀ k, (inboundHeader ctx).index k = none →
      k ∉ debugHeaders (forwardHeaders d ctx pCtx h).2 := by
    intro k hk hmem
    rcases forwardHeaders_trace_cases d ctx pCtx h with h0 | h0 | ⟨H, _, h0⟩
    · rw [h0] at hmem; simp [debugHeaders] at hmem
    · rw [h0] at hmem; simp [debugHeaders] at hmem
    · rw [h0, debugHeaders_pairs, List.mem_map] at hmem
      obtain ⟨⟨a, b⟩, hp, rfl⟩ := hmem
      have := (mem_loopCalls _ _ _ _ hp).2.1
      simp [hk] at this
  have hshape : (forwardHeaders d ctx pCtx h).2
      = (warnings (forwardHeaders d ctx pCtx h).2).map Event.Warn
        ++ (setCalls (forwardHeaders d ctx pCtx h).2).flatMap pairEvents ∧
      debugHeaders (forwardHeaders d ctx pCtx h).2
        = (setCalls (forwardHeaders d ctx pCtx h).2).map Prod.fst := by
    rcases forwardHeaders_trace_cases d ctx pCtx h with h0 | h0 | ⟨H, _, h0⟩
    · rw [h0]; exact ⟨rfl, rfl⟩
    · rw [h0]; exact ⟨rfl, rfl⟩
    · rw [h0, warnings_pairs, setCalls_pairs, debugHeaders_pairs]
      exact ⟨rfl, rfl⟩
  refine ⟨hshape.1, hshape.2, ?_, hexact, ?_⟩
  · rw [hshape.2, List.length_map]
  · intro k hk
    apply hexact
    cases hi : (inboundHeader ctx).index k with
    | none => rfl
    | some vs =>
      have := carries_of_index _ _ _ hi
      rw [hk] at this
      exact Bool.noConfusion this

end Relational

end ForwardHeaders
